import Mathlib

/-!
Shallow embedding of the fund entity-resolution core of the pension-fund-tracker
repository, and proofs about it.

Embedded source files:
* `src/utils/normalization.py` — `normalize_fund_name`, `extract_fund_number`,
  `normalize_gp_name`, `extract_gp_from_fund_name` (with `_KNOWN_GPS`,
  `_FUND_SUFFIXES`, `_ROMAN_NUMERAL_PATTERN`);
* `src/entity_resolution.py` — `FundRegistry` (`resolve`, `_fuzzy_match`,
  `_distinctive_tokens`, `_create_new_fund`, `get_stats`);
* `src/database.py` — `add_fund_alias`, `add_gp_alias`, `upsert_fund` together
  with the `fund_aliases` / `gp_aliases` UNIQUE constraints (SQLite semantics:
  NULLs are distinct under a UNIQUE constraint).

Python strings are `String` (operations are re-implemented over `List Char` so
that everything reduces in the kernel), Python `None`/optional values are
`Option`, SQLite rows are list elements, `uuid4` id generation is modelled by a
fresh counter threaded through the state (only freshness/distinctness of the
ids is relevant to resolution), and the `rapidfuzz` similarity primitives are
modelled exactly over `ℚ`: `fuzz.ratio` is the normalized InDel similarity
`2·lcs(a,b)/(|a|+|b|)` (with 1 for two empty strings), `fuzz.token_sort_ratio`
sorts the whitespace tokens first.  Scores are kept in `[0,1]` (the source
divides the 0–100 values by 100 before comparing against its thresholds).

The fund classification fields `asset_class` / `sub_strategy`
(`classify_fund_strategy`) are not modelled: no resolution decision or claim
reads them.
-/

set_option maxRecDepth 100000

/-! ## Generic character/string helpers -/

/-- Python `str.lower()` (ASCII, which covers all comparisons in the source). -/
def strLower (s : String) : String := String.mk (s.data.map Char.toLower)

/-- Python `str.upper()`. -/
def strUpper (s : String) : String := String.mk (s.data.map Char.toUpper)

/-- Python `str.strip()`. -/
def strTrim (s : String) : String :=
  String.mk (((s.data.dropWhile Char.isWhitespace).reverse.dropWhile Char.isWhitespace).reverse)

/-- Word characters, Python's `\w` = `[A-Za-z0-9_]`; used to model
`\b...\b` word-boundary regex matches. -/
def isWordChar (c : Char) : Bool := c.isAlphanum || c = '_'

/-- Maximal runs of equal-class characters (word / non-word). -/
def charRuns : List Char → List (List Char)
  | [] => []
  | c :: cs =>
    match charRuns cs with
    | [] => [[c]]
    | r :: rs =>
      match r with
      | [] => [c] :: rs
      | d :: _ => if isWordChar c = isWordChar d then (c :: r) :: rs else [c] :: r :: rs

/-- Fields of `re.split` by maximal separator runs: adjacent separators produce
no empty field, but a leading/trailing separator run does. -/
def splitFieldsAux (sep : Char → Bool) : List Char → Bool → List Char → List (List Char)
  | [], _, acc => [acc.reverse]
  | c :: cs, inSep, acc =>
    if sep c then
      if inSep then splitFieldsAux sep cs true acc
      else acc.reverse :: splitFieldsAux sep cs true []
    else splitFieldsAux sep cs false (c :: acc)

/-- Python `str.split()` (split on whitespace runs, no empty fields). -/
def wsTokens (s : String) : List String :=
  ((splitFieldsAux Char.isWhitespace s.data false []).map String.mk).filter (fun t => t ≠ "")

/-- Collapse every whitespace run to a single space (`re.sub(r'\s+', ' ', s)`).
The boolean argument records whether the previous character was whitespace. -/
def collapseWsAux : List Char → Bool → List Char
  | [], _ => []
  | c :: cs, prevWs =>
    if c.isWhitespace then
      if prevWs then collapseWsAux cs true else ' ' :: collapseWsAux cs true
    else c :: collapseWsAux cs false

def collapseWs (s : String) : String := String.mk (collapseWsAux s.data false)

/-- Drop one trailing `c` if present (works on a reversed character list). -/
def dropOptChar (c : Char) (l : List Char) : List Char :=
  match l with
  | x :: t => if x = c then t else l
  | [] => l

/-- Require one character equal (case-insensitively) to `c` (reversed list). -/
def dropCharCI (c : Char) (l : List Char) : Option (List Char) :=
  match l with
  | x :: t => if x.toLower = c then some t else none
  | [] => none

/-- Require the given (already reversed, lowercase) characters (reversed list). -/
def dropCharsCI : List Char → List Char → Option (List Char)
  | [], l => some l
  | c :: cs, l => (dropCharCI c l).bind (dropCharsCI cs)

/-- Strip a trailing regex match of the form `,? \s* CORE $` (the shape of all
legal-suffix patterns in `normalization.py`).  `core` consumes the reversed
suffix; `preWs` additionally allows trailing whitespace after the core
(the `\s*$` variants used in `extract_gp_from_fund_name`).  Returns the input
unchanged when the pattern does not match. -/
def stripPattern (preWs : Bool) (core : List Char → Option (List Char)) (s : String) : String :=
  let r := s.data.reverse
  let r0 := if preWs then r.dropWhile Char.isWhitespace else r
  match core r0 with
  | none => s
  | some r1 => String.mk ((dropOptChar ',' (r1.dropWhile Char.isWhitespace)).reverse)

/-- Core of `L\.?P\.?` (reversed). -/
def coreLP (r : List Char) : Option (List Char) :=
  (dropCharCI 'p' (dropOptChar '.' r)).bind (fun r1 => dropCharCI 'l' (dropOptChar '.' r1))

/-- Core of `LLC` (reversed). -/
def coreLLC (r : List Char) : Option (List Char) := dropCharsCI ['c', 'l', 'l'] r

/-- Core of `Ltd\.?` (reversed). -/
def coreLtd (r : List Char) : Option (List Char) := dropCharsCI ['d', 't', 'l'] (dropOptChar '.' r)

/-- Core of `Inc\.?` (reversed). -/
def coreInc (r : List Char) : Option (List Char) := dropCharsCI ['c', 'n', 'i'] (dropOptChar '.' r)

/-- Core of `Co\.?` (reversed). -/
def coreCo (r : List Char) : Option (List Char) := dropCharsCI ['o', 'c'] (dropOptChar '.' r)

/-! ## normalization.py: normalize_fund_name -/

/-- Abbreviation table of `normalize_fund_name` (`\bFd\b → Fund`, …).  Each
pattern is a full word, so a match is exactly a maximal word-character run equal
(case-insensitively) to the abbreviation. -/
def abbrevTable : List (String × String) :=
  [("fd", "Fund"), ("prtrs", "Partners"), ("ptnrs", "Partners"), ("cap", "Capital"),
   ("mgmt", "Management"), ("intl", "International"), ("inv", "Investment")]

def expandRun (r : List Char) : List Char :=
  if isWordChar (r.headD ' ') then
    match abbrevTable.lookup (strLower (String.mk r)) with
    | some rep => rep.data
    | none => r
  else r

def expandAbbrevs (s : String) : String :=
  String.mk ((charRuns s.data).map expandRun).flatten

/-- `normalize_fund_name` (normalization.py lines 280–315): trim, strip the
legal suffixes `L.P. / LLC / Ltd / Inc / Co` (in that order, case-insensitive,
with optional preceding comma/whitespace), expand the abbreviation table,
collapse whitespace. -/
def normalizeFundName (name : String) : String :=
  if name = "" then ""
  else
    let s := strTrim name
    let s := stripPattern false coreLP s
    let s := stripPattern false coreLLC s
    let s := stripPattern false coreLtd s
    let s := stripPattern false coreInc s
    let s := stripPattern false coreCo s
    let s := expandAbbrevs s
    strTrim (collapseWs s)

/-- `normalize_gp_name` (normalization.py lines 449–453). -/
def normalizeGpName (name : String) : String :=
  if name = "" then "" else normalizeFundName name

/-! ## normalization.py: extract_fund_number -/

/-- `_ROMAN_VALUES` of `extract_fund_number`. -/
def romanValue (s : String) : Option Nat :=
  match s with
  | "I" => some 1 | "II" => some 2 | "III" => some 3 | "IV" => some 4 | "V" => some 5
  | "VI" => some 6 | "VII" => some 7 | "VIII" => some 8 | "IX" => some 9 | "X" => some 10
  | "XI" => some 11 | "XII" => some 12 | "XIII" => some 13 | "XIV" => some 14 | "XV" => some 15
  | "XVI" => some 16 | "XVII" => some 17 | "XVIII" => some 18 | "XIX" => some 19 | "XX" => some 20
  | "XXI" => some 21 | "XXII" => some 22 | "XXIII" => some 23 | "XXIV" => some 24 | "XXV" => some 25
  | _ => none

/-- Separator class of `re.split(r'[\s,\-\'\"()]+', ...)` (the two
`Char.ofNat` characters are the single and double quote). -/
def efnSep (c : Char) : Bool :=
  c.isWhitespace || c = ',' || c = '-' || c = Char.ofNat 39 || c = Char.ofNat 34 ||
    c = '(' || c = ')'

def splitTokens (s : String) : List String :=
  (splitFieldsAux efnSep s.data false []).map String.mk

def rstripDots (s : String) : String :=
  String.mk ((s.data.reverse.dropWhile (fun c => c = '.')).reverse)

def rstripDotsCommas (s : String) : String :=
  String.mk ((s.data.reverse.dropWhile (fun c => c = '.' || c = ',')).reverse)

def endsWithLowerV (s : String) : Bool :=
  match (strLower s).data.reverse with
  | c :: _ => c = 'v'
  | [] => false

/-- Fund-context vocabulary guarding a standalone `I`. -/
def efnFundWords : List String :=
  ["fund", "partners", "capital", "equity", "ventures", "opportunities", "growth",
   "credit", "europe", "asia", "evergreen", "springblue"]

/-- Loop-body eligibility test of `extract_fund_number` for the token at index
`i`: Roman-numeral parse of the upper-cased, dot-stripped token, plus the
standalone-`I` and standalone-`V` guards. -/
def efnCheck (tokens : List String) (i : Nat) (token : String) : Option (Nat × String) :=
  let upper := rstripDots (strUpper token)
  match romanValue upper with
  | none => none
  | some value =>
    if upper = "I" then
      if i = 0 then none
      else
        if rstripDotsCommas (strLower (tokens.getD (i - 1) "")) ∈ efnFundWords then
          some (value, upper)
        else none
    else if upper = "V" then
      if 0 < i ∧ endsWithLowerV (tokens.getD (i - 1) "") then none else some (value, upper)
    else some (value, upper)

/-- The `best_roman` / `best_value` fold of `extract_fund_number`. -/
def efnLoop (tokens : List String) : List (Nat × String) → Option String → Nat → Option String
  | [], best, _ => best
  | (i, t) :: rest, best, bestVal =>
    match efnCheck tokens i t with
    | none => efnLoop tokens rest best bestVal
    | some (v, up) =>
      if bestVal < v then efnLoop tokens rest (some up) v
      else efnLoop tokens rest best bestVal

/-- `extract_fund_number` (normalization.py lines 318–374). -/
def extractFundNumber (name : String) : Option String :=
  if name = "" then none
  else
    let tokens := splitTokens (strTrim name)
    efnLoop tokens tokens.enum none 0

/-! ## rapidfuzz similarity primitives

`fuzz.ratio` is the normalized InDel similarity: with `lcs` the longest common
subsequence length, the similarity of `a` and `b` is `2·lcs/(|a|+|b|)`
(`1` when both are empty).  `fuzz.token_sort_ratio` sorts the whitespace
tokens of both sides and joins them with single spaces before comparing.
The source divides rapidfuzz's 0–100 result by `100.0`; we produce the value
in `[0,1]` directly. -/

/-- One row-update step of the standard LCS dynamic program: given the previous
row (aligned so its head is the diagonal neighbour) and the value to the left,
produce the rest of the next row. -/
def lcsRowStep (c : Char) : List Char → List Nat → Nat → List Nat
  | [], _, _ => []
  | b :: bs, prev, left =>
    match prev with
    | [] => []
    | diag :: prest =>
      let up := prest.headD 0
      let cur := if b = c then diag + 1 else max left up
      cur :: lcsRowStep c bs prest cur

/-- Length of a longest common subsequence, by the row-wise dynamic program. -/
def lcsLength (a b : List Char) : Nat :=
  (a.foldl (fun row c => 0 :: lcsRowStep c b row 0) (List.replicate (b.length + 1) 0)).getLastD 0

/-- `fuzz.ratio(a, b) / 100`: normalized InDel similarity in `[0,1]`.
(`Rat.divInt` is used instead of `/` so that the value reduces in the kernel.) -/
def ratioScore (a b : String) : ℚ :=
  if a.data.length + b.data.length = 0 then 1
  else Rat.divInt ((2 * lcsLength a.data b.data : Nat) : Int)
    ((a.data.length + b.data.length : Nat) : Int)

/-- Code-point comparison of strings (Python string `<`). -/
def listCharLt : List Char → List Char → Bool
  | [], [] => false
  | [], _ :: _ => true
  | _ :: _, [] => false
  | a :: as, b :: bs => if a = b then listCharLt as bs else decide (a.toNat < b.toNat)

def insertSortedStr (s : String) : List String → List String
  | [] => [s]
  | t :: ts => if listCharLt s.data t.data then s :: t :: ts else t :: insertSortedStr s ts

/-- Python `sorted` on strings (insertion sort; stable, code-point order). -/
def sortStrings : List String → List String
  | [] => []
  | s :: ss => insertSortedStr s (sortStrings ss)

/-- Join with single spaces (the token-sort preprocessing of rapidfuzz). -/
def joinSpaces : List String → String
  | [] => ""
  | [t] => t
  | t :: ts => t ++ " " ++ joinSpaces ts

def tokenSortedForm (s : String) : String := joinSpaces (sortStrings (wsTokens s))

/-- `fuzz.token_sort_ratio(a, b) / 100`. -/
def tokenSortScore (a b : String) : ℚ := ratioScore (tokenSortedForm a) (tokenSortedForm b)

/-! ## entity_resolution.py: _distinctive_tokens and the strategy keywords -/

/-- `_GENERIC` of `FundRegistry._distinctive_tokens` (entity_resolution.py
lines 129–141; the set literal lists `scsp` twice, which is a no-op). -/
def genericTokens : Finset String :=
  (["fund", "capital", "partners", "partner", "investment", "investments",
    "equity", "ventures", "venture", "credit", "group", "management",
    "global", "international", "opportunities", "special", "situations",
    "growth", "buyout", "real", "estate", "infrastructure", "the",
    "of", "and", "new", "north", "south", "east", "west",
    "i", "ii", "iii", "iv", "v", "vi", "vii", "viii", "ix", "x",
    "xi", "xii", "xiii", "xiv", "xv", "xvi", "xvii", "xviii",
    "a", "b", "c", "d", "e", "lp", "llc", "ltd", "inc", "co",
    "no", "no.", "series", "coinvestment", "co-investment",
    "scsp", "te", "us", "u.s.", "europe", "asia",
    "america", "americas", "latin", "pacific"] : List String).toFinset

/-- `FundRegistry._distinctive_tokens` (entity_resolution.py lines 121–143). -/
def distinctiveTokens (normalized_name : String) : Finset String :=
  (wsTokens (strLower normalized_name)).toFinset \ genericTokens

/-- `_STRATEGY_WORDS` of `FundRegistry._fuzzy_match` (line 205). -/
def strategyWords : Finset String :=
  (["credit", "asia", "europe", "latin", "real", "infrastructure"] : List String).toFinset

/-- The strategy/geography keywords found in a normalized name
(`set(name.split()) & _STRATEGY_WORDS`, entity_resolution.py lines 206–207). -/
def strategySet (s : String) : Finset String := (wsTokens s).toFinset ∩ strategyWords

/-! ## normalization.py: extract_gp_from_fund_name -/

/-- `_KNOWN_GPS` (normalization.py lines 459–647), in source order. -/
def knownGps : List String :=
  ["KKR", "Blackstone", "Apollo", "TPG", "Carlyle", "Warburg Pincus",
   "Hellman & Friedman", "Advent International", "Francisco Partners", "Bain Capital",
   "Silver Lake", "Vista Equity", "Thoma Bravo", "Ares", "Brookfield", "EQT",
   "CVC Capital Partners", "Permira", "Cinven", "Apax", "Bridgepoint", "Hg",
   "General Atlantic", "Insight Partners", "Sequoia", "Andreessen Horowitz", "Accel",
   "Bessemer Venture Partners", "Greylock", "Lightspeed", "NEA", "Clearlake", "Genstar",
   "GTCR", "Leonard Green", "Madison Dearborn", "Providence Equity", "Welsh Carson",
   "Centerbridge", "Cerberus", "Oaktree", "Angelo Gordon", "Alchemy", "Berkshire",
   "Kohlberg", "Summit Partners", "TA Associates", "Veritas Capital", "Platinum Equity",
   "Roark Capital", "Audax", "American Securities", "Clayton Dubilier & Rice", "Kelso",
   "New Mountain", "Riverside", "Charlesbank", "Sun Capital", "Sycamore Partners",
   "Trilantic", "Harvest Partners", "ICG", "PAI Partners", "BC Partners",
   "Investindustrial", "Nordic Capital", "Triton", "Astorg", "IK", "Montagu", "Wendel",
   "Ardian", "Coller Capital", "HarbourVest", "Lexington Partners", "Adams Street",
   "Hamilton Lane", "Pantheon", "StepStone", "GI Partners", "Menlo Ventures",
   "Battery Ventures", "Index Ventures", "Benchmark", "Founders Fund", "Kleiner Perkins",
   "GGV Capital", "Tiger Global", "Coatue", "D1 Capital", "Lone Pine", "Viking Global",
   "Baupost", "Elliott", "Starwood", "Lone Star", "Colony Capital", "Heitman", "CBRE",
   "Blackrock", "BlackRock", "Invesco", "Morgan Stanley", "Goldman Sachs", "JP Morgan",
   "JPMorgan", "Deutsche Bank", "Credit Suisse", "UBS", "Barclays", "Macquarie", "AEW",
   "Prologis", "Hines", "Tishman Speyer", "Related", "Rockwood", "Denham", "EnCap",
   "Kayne Anderson", "ArcLight", "Stonepeak", "EIG", "Global Infrastructure Partners",
   "Antin Infrastructure", "I Squared Capital", "Partners Group", "AlpInvest",
   "Neuberger Berman", "ACON", "Accel-KKR", "Advent Global Technology",
   "A&M Capital Partners", "Birch Hill Equity Partners", "Boston Ventures",
   "Brazos Equity", "Brentwood Associates", "CCMP Capital", "CDH", "Duff & Phelps",
   "EnCap Flatrock", "First Reserve", "Golden Gate Capital", "Green Equity", "Greenhill",
   "H&F", "Hg Capital", "Industry Ventures", "JMI Equity", "Kelso & Company",
   "Linden Capital", "MBK Partners", "MidOcean", "Oak Hill", "Ocean Avenue",
   "Pacific Equity Partners", "Peak Rock", "Peppertree Capital", "Quadrangle",
   "Quantum Energy Partners", "Rhone", "Siris Capital", "Sterling Capital",
   "Stone Point Capital", "Symphony Technology", "TCV", "TH Lee", "Thomas H. Lee",
   "Torchlight", "Tower Brook", "TowerBrook", "Trident Capital", "Vestar Capital",
   "Vitruvian Partners", "WL Ross", "Warburg", "Waterton", "Wellspring Capital",
   "Wind Point", "57 Stars", "Acrew Capital", "Actis", "Blue Run Ventures", "Butterfly",
   "Endeavour Capital", "OVP Venture Partners", "ARCH Venture"]

/-- Ordered association-list update with Python-dict semantics: overwriting an
existing key keeps its position, a new key is appended. -/
def insertAssocStr (m : List (String × String)) (k v : String) : List (String × String) :=
  match m with
  | [] => [(k, v)]
  | (k0, v0) :: t => if k0 = k then (k, v) :: t else (k0, v0) :: insertAssocStr t k v

/-- `_GP_LOOKUP`: lowercased GP name → canonical GP name, in dict order. -/
def gpLookup : List (String × String) :=
  knownGps.foldl (fun m gp => insertAssocStr m (strLower gp) gp) []

/-- Python substring containment (`needle in hay`). -/
def containsSub (hay needle : List Char) : Bool :=
  if needle.isPrefixOf hay then true
  else
    match hay with
    | [] => needle.isEmpty
    | _ :: t => containsSub t needle

/-- Strategy 1 of `extract_gp_from_fund_name`: best (longest, first on ties)
known-GP substring match of the lowercased name. -/
def gpBestMatch (name_lower : String) : Option String :=
  (gpLookup.foldl
    (fun acc p =>
      if containsSub name_lower.data p.1.data && decide (acc.2 < p.1.data.length) then
        (some p.2, p.1.data.length)
      else acc)
    ((none : Option String), 0)).1

/-- Scanner mode for the parenthetical-removal pass: `normal` text, `inParen`
(inside a `\([^)]*\)` group that is known to close), `postWs` (consuming the
trailing `\s*` of a replaced match). -/
inductive PScanMode where
  | normal
  | inParen
  | postWs
deriving DecidableEq

/-- `re.sub(r'\s*\([^)]*\)\s*', ' ', s)` applied to all matches left to right:
each whitespace-run + first-closing parenthesized group + trailing whitespace
becomes one space.  `pend` holds a whitespace run not yet emitted (it is
dropped when it turns out to precede a replaced group). -/
def removeParensAux : List Char → List Char → PScanMode → List Char
  | [], pend, PScanMode.normal => pend
  | [], _, _ => []
  | c :: cs, pend, PScanMode.normal =>
    if c.isWhitespace then removeParensAux cs (pend ++ [c]) PScanMode.normal
    else if c = '(' && cs.contains ')' then ' ' :: removeParensAux cs [] PScanMode.inParen
    else pend ++ c :: removeParensAux cs [] PScanMode.normal
  | c :: cs, _, PScanMode.inParen =>
    if c = ')' then removeParensAux cs [] PScanMode.postWs
    else removeParensAux cs [] PScanMode.inParen
  | c :: cs, _, PScanMode.postWs =>
    if c.isWhitespace then removeParensAux cs [] PScanMode.postWs
    else if c = '(' && cs.contains ')' then ' ' :: removeParensAux cs [] PScanMode.inParen
    else c :: removeParensAux cs [] PScanMode.normal

def removeParens (s : String) : String := String.mk (removeParensAux s.data [] PScanMode.normal)

def isLetterAE (c : Char) : Bool := c = 'A' || c = 'B' || c = 'C' || c = 'D' || c = 'E'

/-- `re.sub(r"\s*[-–]\s*[A-E]\s*$", '', s)`. -/
def stripDashLetter (s : String) : String :=
  let r := s.data.reverse.dropWhile Char.isWhitespace
  match r with
  | c :: r1 =>
    if isLetterAE c then
      match r1.dropWhile Char.isWhitespace with
      | d :: r3 =>
        if d = '-' || d = Char.ofNat 8211 then
          String.mk ((r3.dropWhile Char.isWhitespace).reverse)
        else s
      | [] => s
    else s
  | [] => s

/-- `re.sub(r"\s+'[A-E]'\s*$", '', s)` (the quote is `Char.ofNat 39`). -/
def stripQuotedLetter (s : String) : String :=
  let r := s.data.reverse.dropWhile Char.isWhitespace
  match r with
  | q1 :: c :: q2 :: r3 =>
    if q1 = Char.ofNat 39 && isLetterAE c && q2 = Char.ofNat 39 then
      match r3 with
      | w :: _ =>
        if w.isWhitespace then String.mk ((r3.dropWhile Char.isWhitespace).reverse) else s
      | [] => s
    else s
  | _ => s

/-- `re.sub(r"\s+[A-E]\s*$", '', s)`. -/
def stripBareLetter (s : String) : String :=
  let r := s.data.reverse.dropWhile Char.isWhitespace
  match r with
  | c :: r1 =>
    if isLetterAE c then
      match r1 with
      | w :: _ =>
        if w.isWhitespace then String.mk ((r1.dropWhile Char.isWhitespace).reverse) else s
      | [] => s
    else s
  | [] => s

/-- `_ROMAN_NUMERAL_PATTERN.sub('', s)`: every `\b(XXV|…|I)\b` match (the
alternation is exactly the 25 numerals, case-insensitive) is a maximal
word-character run equal to a numeral; delete those runs. -/
def removeRomanNumerals (s : String) : String :=
  String.mk (((charRuns s.data).map (fun r =>
    if isWordChar (r.headD ' ') && (romanValue (strUpper (String.mk r))).isSome then []
    else r)).flatten)

/-- `re.sub(r'\s+\d+\.?\d*\s*$', '', s)`. -/
def stripTrailingNumber (s : String) : String :=
  let r := s.data.reverse.dropWhile Char.isWhitespace
  let fracPart := r.takeWhile Char.isDigit
  let r1 := r.dropWhile Char.isDigit
  match r1 with
  | '.' :: r2 =>
    let intPart := r2.takeWhile Char.isDigit
    let r3 := r2.dropWhile Char.isDigit
    if intPart.isEmpty then s
    else
      match r3 with
      | w :: _ =>
        if w.isWhitespace then String.mk ((r3.dropWhile Char.isWhitespace).reverse) else s
      | [] => s
  | _ =>
    if fracPart.isEmpty then s
    else
      match r1 with
      | w :: _ =>
        if w.isWhitespace then String.mk ((r1.dropWhile Char.isWhitespace).reverse) else s
      | [] => s

/-- Core of `SCSp` (reversed). -/
def coreSCSp (r : List Char) : Option (List Char) := dropCharsCI ['p', 's', 'c', 's'] r

/-- Core of `Cooperatief\s*U\.?A\.?` (reversed). -/
def coreCoop (r : List Char) : Option (List Char) :=
  (dropCharCI 'a' (dropOptChar '.' r)).bind (fun r1 =>
    (dropCharCI 'u' (dropOptChar '.' r1)).bind (fun r2 =>
      dropCharsCI "feitarepooc".data (r2.dropWhile Char.isWhitespace)))

/-- `_FUND_SUFFIXES` (normalization.py lines 661–713), in source order. -/
def fundSuffixes : List String :=
  ["Limited Partnership", "Capital Partners", "Private Equity", "Investment Fund",
   "Equity Partners", "Venture Partners", "Growth Equity Fund", "Growth Equity",
   "Growth Fund", "Buyout Fund", "Buyout Partners", "Strategic Partners",
   "Tactical Opportunities Fund", "Tactical Opportunities", "Special Situations",
   "Real Estate Fund", "Real Estate Partners", "Real Estate", "Infrastructure Partners",
   "Infrastructure Fund", "Infrastructure", "Energy Partners", "Energy Fund",
   "Credit Opportunities", "Credit Partners", "Credit Fund", "Opportunities Fund",
   "Opportunities", "Capital Fund", "Capital Appreciation Fund", "Global Fund",
   "Co-Investment", "Coinvestment", "Co-Invest", "Compounding Capital",
   "Strategic Opportunities", "Secondary Purchase", "Partners", "Capital", "Fund",
   "Investors", "Ventures", "GPE", "SCSp", "Cooperatief U.A.", "Cooperatief",
   "L.P.", "LP", "LLC", "Ltd", "Inc"]

/-- `re.sub(r'\s+' + re.escape(suffix) + r'\s*$', '', s)` (case-insensitive). -/
def stripFundSuffix (suffix : String) (s : String) : String :=
  let r := s.data.reverse.dropWhile Char.isWhitespace
  match dropCharsCI (strLower suffix).data.reverse r with
  | none => s
  | some r1 =>
    match r1 with
    | w :: _ =>
      if w.isWhitespace then String.mk ((r1.dropWhile Char.isWhitespace).reverse) else s
    | [] => s

/-- Python `str.isdigit()` restricted to ASCII (true iff non-empty, all digits). -/
def isAllDigits (l : List Char) : Bool := !l.isEmpty && l.all Char.isDigit

/-- `extract_gp_from_fund_name` (normalization.py lines 716–787). -/
def extractGpFromFundName (fund_name : String) : Option String :=
  if fund_name = "" || strTrim fund_name = "" then none
  else
    let name := strTrim fund_name
    match gpBestMatch (strLower name) with
    | some gp => some gp
    | none =>
      let s := name
      let s := stripPattern true coreLP s
      let s := stripPattern true coreLLC s
      let s := stripPattern true coreLtd s
      let s := stripPattern true coreInc s
      let s := stripPattern true coreSCSp s
      let s := stripPattern true coreCoop s
      let s := removeParens s
      let s := stripDashLetter s
      let s := stripQuotedLetter s
      let s := stripBareLetter s
      let s := removeRomanNumerals s
      let s := stripTrailingNumber s
      let s := fundSuffixes.foldl (fun t suf => stripFundSuffix suf t) s
      let s := String.mk ((s.data.reverse.dropWhile
        (fun c => c.isWhitespace || c = ',' || c = '-' || c = Char.ofNat 8211)).reverse)
      let s := strTrim (collapseWs s)
      if s ≠ "" ∧ 2 ≤ s.data.length ∧ !isAllDigits (s.data.filter (fun c => c ≠ ' ')) then
        some s
      else none


/-! ## entity_resolution.py: FundRegistry and its fuzzy matcher -/

/-- The fields of an in-memory/persisted fund record that resolution reads.
`asset_class` / `sub_strategy` are omitted (never read by resolution). -/
structure Fund where
  id : Nat
  fund_name : String
  fund_name_raw : String
  general_partner : Option String
  general_partner_normalized : Option String
  vintage_year : Option Nat
deriving DecidableEq

/-- Python truthiness of an optional string (`None` and `""` are falsy). -/
def pyStr : Option String → Bool
  | some s => s != ""
  | none => false

/-- `normalize_fund_name(fund["fund_name"]).lower()` for a candidate. -/
def canonicalNormalized (f : Fund) : String := strLower (normalizeFundName f.fund_name)

/-- Hard reject on differing fund numbers (entity_resolution.py lines 178–182):
fires only when both the raw input name and the candidate's canonical name
yield a fund number and the two differ. -/
def numberReject (fund_name_raw : String) (f : Fund) : Bool :=
  match extractFundNumber fund_name_raw, extractFundNumber f.fund_name with
  | some a, some b => a != b
  | _, _ => false

/-- `fuzz.ratio(normalized, canonical_normalized) / 100` (line 191). -/
def standardScore (normalized : String) (f : Fund) : ℚ :=
  ratioScore normalized (canonicalNormalized f)

/-- Hard reject when the order-sensitive similarity is below `0.65` (line 192). -/
def standardReject (normalized : String) (f : Fund) : Bool :=
  decide (standardScore normalized f < Rat.divInt 65 100)

/-- `fuzz.token_sort_ratio(normalized, canonical_normalized) / 100`; this is the
candidate's `name_score` (lines 187, 211). -/
def nameScore (normalized : String) (f : Fund) : ℚ :=
  tokenSortScore normalized (canonicalNormalized f)

/-- Hard reject when both sides have distinctive tokens and the Jaccard overlap
is below `0.3` (lines 195–201). -/
def jaccardReject (normalized : String) (f : Fund) : Bool :=
  let din := distinctiveTokens normalized
  let dcan := distinctiveTokens (canonicalNormalized f)
  if din ≠ ∅ ∧ dcan ≠ ∅ then
    let overlap := din ∩ dcan
    let union := din ∪ dcan
    decide (union ≠ ∅ ∧ Rat.divInt (overlap.card : Int) (union.card : Int) < Rat.divInt 3 10)
  else false

/-- Hard reject when the strategy-keyword sets differ (lines 203–209). -/
def strategyReject (normalized : String) (f : Fund) : Bool :=
  decide (strategySet normalized ≠ strategySet (canonicalNormalized f))

/-- Signal 2, GP similarity above `0.85` when both sides supply a (truthy) GP
name (lines 216–222). -/
def gpSignal (gp_normalized : Option String) (f : Fund) : Bool :=
  match gp_normalized, f.general_partner_normalized with
  | some g, some h =>
    if g ≠ "" ∧ h ≠ "" then decide (Rat.divInt 85 100 < ratioScore g (strLower h)) else false
  | _, _ => false

/-- Signal 3, equal vintage years when both sides supply a (truthy, i.e.
non-zero) one (lines 224–227). -/
def vintageSignal (vintage_year : Option Nat) (f : Fund) : Bool :=
  match vintage_year, f.vintage_year with
  | some a, some b => if a ≠ 0 ∧ b ≠ 0 then decide (a = b) else false
  | _, _ => false

/-- The candidate's signal count (lines 211–227). -/
def signalCount (normalized : String) (gp_normalized : Option String)
    (vintage_year : Option Nat) (f : Fund) : Nat :=
  (if Rat.divInt 85 100 < nameScore normalized f then 1 else 0) +
  (if gpSignal gp_normalized f then 1 else 0) +
  (if vintageSignal vintage_year f then 1 else 0)

/-- A candidate survives every hard reject and meets the qualification bar
`signals ≥ 2 ∧ name_score > 0.75` (lines 178–230). -/
def fuzzyQualifies (fund_name_raw normalized : String) (gp_normalized : Option String)
    (vintage_year : Option Nat) (f : Fund) : Bool :=
  !numberReject fund_name_raw f &&
  !standardReject normalized f &&
  !jaccardReject normalized f &&
  !strategyReject normalized f &&
  decide (2 ≤ signalCount normalized gp_normalized vintage_year f) &&
  decide (Rat.divInt 75 100 < nameScore normalized f)

/-- The `best_id` / `best_score` fold of `_fuzzy_match` (lines 171–232): a
qualifying candidate replaces the current best only when its name score is
strictly higher. -/
def fuzzyLoop (fund_name_raw normalized : String) (gp_normalized : Option String)
    (vintage_year : Option Nat) : List Fund → Option Nat → ℚ → Option Nat × ℚ
  | [], best, bestScore => (best, bestScore)
  | f :: fs, best, bestScore =>
    if fuzzyQualifies fund_name_raw normalized gp_normalized vintage_year f &&
        decide (bestScore < nameScore normalized f) then
      fuzzyLoop fund_name_raw normalized gp_normalized vintage_year fs (some f.id)
        (nameScore normalized f)
    else fuzzyLoop fund_name_raw normalized gp_normalized vintage_year fs best bestScore

/-- `FundRegistry._fuzzy_match` (entity_resolution.py lines 145–236). -/
def fuzzyMatch (fund_name_raw normalized : String) (gp_normalized : Option String)
    (vintage_year : Option Nat) (funds : List Fund) : Option (Nat × ℚ) :=
  match fuzzyLoop fund_name_raw normalized gp_normalized vintage_year funds none 0 with
  | (some fid, score) => some (fid, score)
  | (none, _) => none

/-! ## database.py: the rows and writes the registry uses -/

/-- A row of the `fund_aliases` table
(`UNIQUE(alias, source_pension_fund_id)`); `aliasText` models the `alias`
column (`alias` is a reserved word in Lean). -/
structure AliasRow where
  rowId : Nat
  fund_id : Nat
  aliasText : String
  source_pension_fund_id : Option String
deriving DecidableEq

/-- A row of the `gp_aliases` table (`UNIQUE(alias)`). -/
structure GpAliasRow where
  rowId : Nat
  canonical_name : String
  aliasText : String
deriving DecidableEq

/-- The registry state: the three in-memory indices of `FundRegistry`
(`_funds` in insertion order, `_name_to_id`, `_alias_to_id`) together with the
database tables it writes (`funds`, `fund_aliases`, `gp_aliases`) and the
fresh-id counter modelling `generate_id`. -/
structure RegState where
  funds : List Fund
  name_to_id : List (String × Nat)
  alias_to_id : List (String × Nat)
  db_funds : List Fund
  db_fund_aliases : List AliasRow
  db_gp_aliases : List GpAliasRow
  nextId : Nat
deriving DecidableEq

def emptyState : RegState :=
  { funds := [], name_to_id := [], alias_to_id := [], db_funds := [],
    db_fund_aliases := [], db_gp_aliases := [], nextId := 0 }

/-- Python-dict update: overwrite in place or append. -/
def insertAssoc (m : List (String × Nat)) (k : String) (v : Nat) : List (String × Nat) :=
  match m with
  | [] => [(k, v)]
  | (k0, v0) :: t => if k0 = k then (k, v) :: t else (k0, v0) :: insertAssoc t k v

/-- Python-dict lookup. -/
def lookupAssoc (m : List (String × Nat)) (k : String) : Option Nat :=
  match m with
  | [] => none
  | (k0, v0) :: t => if k0 = k then some v0 else lookupAssoc t k

/-- Conflict test of the `fund_aliases` UNIQUE constraint: under SQLite
semantics NULLs are distinct, so only two equal non-NULL sources conflict. -/
def aliasConflict (src rowSrc : Option String) : Bool :=
  match src, rowSrc with
  | some a, some b => a == b
  | _, _ => false

/-- `Database.add_fund_alias` (database.py lines 354–373): try the INSERT; on
an IntegrityError return the id of the existing `(alias, source)` row. -/
def dbAddFundAlias (st : RegState) (fund_id : Nat) (aliasText : String)
    (source_pension_fund_id : Option String) : RegState × Nat :=
  let newId := st.nextId
  let st1 := { st with nextId := st.nextId + 1 }
  match st1.db_fund_aliases.find?
      (fun r => r.aliasText == aliasText &&
        aliasConflict source_pension_fund_id r.source_pension_fund_id) with
  | some r => (st1, r.rowId)
  | none =>
    ({ st1 with db_fund_aliases := st1.db_fund_aliases ++
        [{ rowId := newId, fund_id := fund_id, aliasText := aliasText,
           source_pension_fund_id := source_pension_fund_id }] }, newId)

/-- `Database.add_gp_alias` (database.py lines 397–411); `alias` is NOT NULL
and `UNIQUE(alias)`. -/
def dbAddGpAlias (st : RegState) (canonical_name : String) (aliasText : String) :
    RegState × Nat :=
  let newId := st.nextId
  let st1 := { st with nextId := st.nextId + 1 }
  match st1.db_gp_aliases.find? (fun r => r.aliasText == aliasText) with
  | some r => (st1, r.rowId)
  | none =>
    ({ st1 with db_gp_aliases := st1.db_gp_aliases ++
        [{ rowId := newId, canonical_name := canonical_name, aliasText := aliasText }] }, newId)

/-- `Database.upsert_fund` (database.py lines 190–224): `ON CONFLICT(id)`
updates every column except `fund_name_raw` (and timestamps). -/
def dbUpsertFund (st : RegState) (f : Fund) : RegState :=
  if st.db_funds.any (fun g => g.id == f.id) then
    let updated := st.db_funds.map
      (fun g => if g.id == f.id then { f with fund_name_raw := g.fund_name_raw } else g)
    { st with db_funds := updated }
  else { st with db_funds := st.db_funds ++ [f] }

/-! ## entity_resolution.py: _create_new_fund and resolve -/

/-- `FundRegistry._create_new_fund` (entity_resolution.py lines 238–291).
The unused `source_pension_fund_id` parameter of the source is omitted. -/
def createNewFund (st : RegState) (fund_name_raw : String) (general_partner : Option String)
    (vintage_year : Option Nat) : RegState × Nat :=
  let fund_id := st.nextId
  let st0 := { st with nextId := st.nextId + 1 }
  let canonical_name := normalizeFundName fund_name_raw
  let gp : Option String :=
    if pyStr general_partner then general_partner
    else extractGpFromFundName (if canonical_name ≠ "" then canonical_name else fund_name_raw)
  let gp_normalized : Option String :=
    if pyStr gp then some (normalizeGpName (gp.getD "")) else none
  let st1 :=
    if pyStr gp ∧ fund_name_raw ≠ "" then (dbAddGpAlias st0 (gp.getD "") fund_name_raw).1
    else st0
  let newFund : Fund :=
    { id := fund_id
      fund_name := if canonical_name ≠ "" then canonical_name else fund_name_raw
      fund_name_raw := fund_name_raw
      general_partner := gp
      general_partner_normalized := gp_normalized
      vintage_year := vintage_year }
  let st2 := dbUpsertFund st1 newFund
  let st3 := { st2 with
    funds := st2.funds ++ [newFund]
    name_to_id := insertAssoc st2.name_to_id
      (strLower (if canonical_name ≠ "" then canonical_name else fund_name_raw)) fund_id }
  (st3, fund_id)

/-- `FundRegistry.resolve` (entity_resolution.py lines 59–119): exact canonical
match, then alias match on the raw and the normalized lowercased string, then
fuzzy match (persisting the raw string as an alias and caching both forms in
the in-memory alias index), else new-fund creation.  Returns the new state,
the fund id and the match type. -/
def resolve (st : RegState) (fund_name_raw : String) (general_partner : Option String)
    (vintage_year : Option Nat) (source_pension_fund_id : Option String) :
    RegState × Nat × String :=
  let normalized := strLower (normalizeFundName fund_name_raw)
  match lookupAssoc st.name_to_id normalized with
  | some fund_id => (st, fund_id, "exact")
  | none =>
    let raw_lower := strLower (strTrim fund_name_raw)
    match lookupAssoc st.alias_to_id raw_lower with
    | some fund_id => (st, fund_id, "alias")
    | none =>
      match lookupAssoc st.alias_to_id normalized with
      | some fund_id => (st, fund_id, "alias")
      | none =>
        let gp_normalized : Option String :=
          if pyStr general_partner then
            some (strLower (normalizeGpName (general_partner.getD "")))
          else none
        match fuzzyMatch fund_name_raw normalized gp_normalized vintage_year st.funds with
        | some (fund_id, _score) =>
          let st1 := (dbAddFundAlias st fund_id fund_name_raw source_pension_fund_id).1
          let st2 := { st1 with
            alias_to_id := insertAssoc (insertAssoc st1.alias_to_id raw_lower fund_id)
              normalized fund_id }
          (st2, fund_id, "fuzzy")
        | none =>
          let r := createNewFund st fund_name_raw general_partner vintage_year
          (r.1, r.2, "new")

/-- `FundRegistry.get_stats` (entity_resolution.py lines 293–298). -/
def getStats (st : RegState) : Nat × Nat := (st.funds.length, st.alias_to_id.length)

/-! ## Concrete fixtures and claim-side (spec) definitions used below -/
/-- A seeded fund used as a concrete fuzzy-match candidate. -/
def alphaFund : Fund :=
  { id := 0, fund_name := "Alpha Fund II", fund_name_raw := "Alpha Fund II",
    general_partner := none, general_partner_normalized := none, vintage_year := some 2020 }

def wbResolve1 : RegState × Nat × String :=
  resolve emptyState "Warburg Pincus Private Equity XII, L.P." none (some 2019) none

def wbResolve2 : RegState × Nat × String :=
  resolve wbResolve1.1 "Warburg Pincus Private Equity XI, L.P." none (some 2017) none

/-- A concrete state with one fund indexed under its normalized name. -/
def alphaState : RegState :=
  { funds := [alphaFund], name_to_id := [("alpha fund ii", 0)], alias_to_id := [],
    db_funds := [alphaFund], db_fund_aliases := [], db_gp_aliases := [], nextId := 1 }

def llcResolve1 : RegState × Nat × String := resolve emptyState "LLC" none none none

def llcResolve2 : RegState × Nat × String := resolve llcResolve1.1 "LLC" none none none

def mkAliasRow (rowId fund_id : Nat) (aliasText : String) (src : Option String) : AliasRow :=
  { rowId := rowId, fund_id := fund_id, aliasText := aliasText,
    source_pension_fund_id := src }

def kkrResolve1 : RegState × Nat × String :=
  resolve emptyState "KKR Americas XII Fund" (some "KKR") (some 2017) (some "calpers")

def kkrResolve2 : RegState × Nat × String :=
  resolve kkrResolve1.1 "KKR Americas Fund XII" (some "KKR") (some 2017) (some "calpers")

/-- The uniqueness invariant actually enforced by the SQLite schema: the pair
`(alias_text, source_id)` determines the row whenever the source is non-NULL
(SQLite UNIQUE constraints treat NULLs as distinct). -/
def aliasKeyUnique (l : List AliasRow) : Prop :=
  ∀ r1 ∈ l, ∀ r2 ∈ l, r1.aliasText = r2.aliasText →
    r1.source_pension_fund_id = r2.source_pension_fund_id →
    r1.source_pension_fund_id ≠ none → r1 = r2

def dupAdd1 : RegState × Nat := dbAddFundAlias emptyState 5 "Fund A" none

def dupAdd2 : RegState × Nat := dbAddFundAlias dupAdd1.1 5 "Fund A" none

def c9State : RegState :=
  { emptyState with db_fund_aliases := [mkAliasRow 3 5 "Fund A" (some "ny")], nextId := 4 }

/-- Value-to-numeral inverse of the Roman table (`0` and values above 25 give
`none`). -/
def specRomanOfValue (v : Nat) : Option String :=
  match v with
  | 1 => some "I" | 2 => some "II" | 3 => some "III" | 4 => some "IV" | 5 => some "V"
  | 6 => some "VI" | 7 => some "VII" | 8 => some "VIII" | 9 => some "IX" | 10 => some "X"
  | 11 => some "XI" | 12 => some "XII" | 13 => some "XIII" | 14 => some "XIV" | 15 => some "XV"
  | 16 => some "XVI" | 17 => some "XVII" | 18 => some "XVIII" | 19 => some "XIX"
  | 20 => some "XX" | 21 => some "XXI" | 22 => some "XXII" | 23 => some "XXIII"
  | 24 => some "XXIV" | 25 => some "XXV"
  | _ => none

/-- Claim-side eligibility of a token, written from the claim text: the token
(upper-cased, trailing dots stripped) parses as a Roman numeral I..XXV; a
standalone `I` is accepted only when it is not the first token and the
preceding token is in the fund-context vocabulary; a standalone `V` is skipped
when the preceding token ends in `v`. -/
def specEligibleValue (tokens : List String) (i : Nat) (token : String) : Option Nat :=
  match romanValue (rstripDots (strUpper token)) with
  | none => none
  | some v =>
    if rstripDots (strUpper token) = "I" ∧
        (i = 0 ∨ rstripDotsCommas (strLower (tokens.getD (i - 1) "")) ∉ efnFundWords) then none
    else if rstripDots (strUpper token) = "V" ∧ 0 < i ∧
        endsWithLowerV (tokens.getD (i - 1) "") then none
    else some v

/-- Claim-side extractor: tokenize, keep the eligible Roman-numeral tokens,
return the numeral of the largest eligible value (`none` when there is none). -/
def specFundNumber (name : String) : Option String :=
  if name = "" then none
  else
    let tokens := splitTokens (strTrim name)
    specRomanOfValue
      ((tokens.enum.filterMap (fun p => specEligibleValue tokens p.1 p.2)).foldr max 0)

/-! ## Evaluation sanity checks of the embedding -/
example : extractFundNumber "Warburg Pincus Private Equity XII, L.P." = some "XII" := by decide
example : extractFundNumber "KKR Americas Fund XII" = some "XII" := by decide
example : extractFundNumber "Blackstone Capital Partners V-A" = some "V" := by decide
example : extractFundNumber "LLC" = none := by decide
example : extractFundNumber "I Squared Fund" = none := by decide
example : extractFundNumber "Equity I Fund" = some "I" := by decide
example : normalizeFundName "Warburg Pincus Private Equity XII, L.P." =
    "Warburg Pincus Private Equity XII" := by decide
example : normalizeFundName "Test  Fd Alpha, L.P." = "Test Fund Alpha" := by decide
example : normalizeFundName "LLC" = "" := by decide

example : ratioScore "kkr americas fund xii" "kkr americas xii fund" = Rat.divInt 17 21 := by
  decide
example : tokenSortScore "kkr americas fund xii" "kkr americas xii fund" = 1 := by decide
example : ratioScore "" "" = 1 := by decide

example : distinctiveTokens "kkr americas fund xii" = {"kkr"} := by decide
example : distinctiveTokens "global capital fund iv" = ∅ := by decide
example : strategySet "ares credit fund v" = {"credit"} := by decide

example : removeParens "A (B(C) D and (E) F" = "A D and F" := by decide

/-! ## Helper lemmas -/

theorem lookupAssoc_insertAssoc_self (m : List (String × Nat)) (k : String) (v : Nat) :
    lookupAssoc (insertAssoc m k v) k = some v := by
  induction m with
  | nil => simp [insertAssoc, lookupAssoc]
  | cons p t ih =>
    by_cases h : p.1 = k
    · simp [insertAssoc, lookupAssoc, h]
    · simp [insertAssoc, lookupAssoc, h, ih]

theorem lookupAssoc_insertAssoc_ne (m : List (String × Nat)) {k k' : String} (v : Nat)
    (h : k' ≠ k) : lookupAssoc (insertAssoc m k' v) k = lookupAssoc m k := by
  induction m with
  | nil => simp [insertAssoc, lookupAssoc, h]
  | cons p t ih =>
    by_cases hp : p.1 = k'
    · simp [insertAssoc, lookupAssoc, hp, h, Ne.symm h]
    · simp [insertAssoc, lookupAssoc, hp, ih]

/-- Decomposition of a successful qualification test into its six components
(the four hard-reject guards, the signal-count bar and the score floor). -/
theorem fuzzyQualifies_parts {raw normalized : String} {gpn : Option String}
    {vy : Option Nat} {f : Fund}
    (h : fuzzyQualifies raw normalized gpn vy f = true) :
    numberReject raw f = false ∧ standardReject normalized f = false ∧
    jaccardReject normalized f = false ∧ strategyReject normalized f = false ∧
    2 ≤ signalCount normalized gpn vy f ∧ Rat.divInt 75 100 < nameScore normalized f := by
  simp only [fuzzyQualifies, Bool.and_eq_true, Bool.not_eq_true', decide_eq_true_eq] at h
  obtain ⟨⟨⟨⟨⟨h1, h2⟩, h3⟩, h4⟩, h5⟩, h6⟩ := h
  exact ⟨h1, h2, h3, h4, h5, h6⟩

/-- Invariant of the `best_id` / `best_score` fold: the final score dominates
the initial score and every qualifying candidate's name score, and the result
is either untouched or the qualifying candidate realizing the final score. -/
theorem fuzzyLoop_spec (raw normalized : String) (gpn : Option String) (vy : Option Nat) :
    ∀ (fs : List Fund) (best : Option Nat) (bestScore : ℚ),
      bestScore ≤ (fuzzyLoop raw normalized gpn vy fs best bestScore).2 ∧
      (∀ g ∈ fs, fuzzyQualifies raw normalized gpn vy g = true →
        nameScore normalized g ≤ (fuzzyLoop raw normalized gpn vy fs best bestScore).2) ∧
      (fuzzyLoop raw normalized gpn vy fs best bestScore = (best, bestScore) ∨
        ∃ f ∈ fs, fuzzyQualifies raw normalized gpn vy f = true ∧
          (fuzzyLoop raw normalized gpn vy fs best bestScore).1 = some f.id ∧
          (fuzzyLoop raw normalized gpn vy fs best bestScore).2 = nameScore normalized f) := by
  intro fs
  induction fs with
  | nil => intro best bestScore; exact ⟨le_refl _, by simp, Or.inl rfl⟩
  | cons f rest ih =>
    intro best bestScore
    by_cases hc : (fuzzyQualifies raw normalized gpn vy f = true ∧
        bestScore < nameScore normalized f)
    · have hred : fuzzyLoop raw normalized gpn vy (f :: rest) best bestScore =
          fuzzyLoop raw normalized gpn vy rest (some f.id) (nameScore normalized f) := by
        simp [fuzzyLoop, hc.1, hc.2]
      obtain ⟨ih1, ih2, ih3⟩ := ih (some f.id) (nameScore normalized f)
      refine ⟨?_, ?_, ?_⟩
      · rw [hred]; exact le_of_lt (lt_of_lt_of_le hc.2 ih1)
      · intro g hg hq
        rw [hred]
        rcases List.mem_cons.mp hg with hgf | hgr
        · subst hgf; exact ih1
        · exact ih2 g hgr hq
      · rw [hred]
        rcases ih3 with heq | ⟨f', hf', hq', h1', h2'⟩
        · right
          exact ⟨f, List.mem_cons_self f rest, hc.1, by rw [heq], by rw [heq]⟩
        · right
          exact ⟨f', List.mem_cons_of_mem f hf', hq', h1', h2'⟩
    · have hred : fuzzyLoop raw normalized gpn vy (f :: rest) best bestScore =
          fuzzyLoop raw normalized gpn vy rest best bestScore := by
        rcases Decidable.em (fuzzyQualifies raw normalized gpn vy f = true) with hq | hq
        · have hlt : ¬ bestScore < nameScore normalized f := fun hl => hc ⟨hq, hl⟩
          simp [fuzzyLoop, hq, hlt]
        · simp only [Bool.not_eq_true] at hq
          simp [fuzzyLoop, hq]
      obtain ⟨ih1, ih2, ih3⟩ := ih best bestScore
      refine ⟨?_, ?_, ?_⟩
      · rw [hred]; exact ih1
      · intro g hg hq
        rw [hred]
        rcases List.mem_cons.mp hg with hgf | hgr
        · subst hgf
          have hle : nameScore normalized g ≤ bestScore := le_of_not_lt (fun hl => hc ⟨hq, hl⟩)
          exact le_trans hle ih1
        · exact ih2 g hgr hq
      · rw [hred]
        rcases ih3 with heq | ⟨f', hf', hq', h1', h2'⟩
        · exact Or.inl heq
        · exact Or.inr ⟨f', List.mem_cons_of_mem f hf', hq', h1', h2'⟩

/-- A successful fuzzy match returns a qualifying candidate of maximal
token-sort name score. -/
theorem fuzzyMatch_some {raw normalized : String} {gpn : Option String} {vy : Option Nat}
    {funds : List Fund} {fid : Nat} {score : ℚ}
    (h : fuzzyMatch raw normalized gpn vy funds = some (fid, score)) :
    ∃ f ∈ funds, f.id = fid ∧ fuzzyQualifies raw normalized gpn vy f = true ∧
      score = nameScore normalized f ∧
      ∀ g ∈ funds, fuzzyQualifies raw normalized gpn vy g = true →
        nameScore normalized g ≤ score := by
  obtain ⟨h1, h2, h3⟩ := fuzzyLoop_spec raw normalized gpn vy funds none 0
  unfold fuzzyMatch at h
  rcases hl : fuzzyLoop raw normalized gpn vy funds none 0 with ⟨b, s⟩
  rw [hl] at h h1 h2 h3
  cases b with
  | none => simp at h
  | some fid' =>
    have h' : (fid', s) = (fid, score) := Option.some.inj h
    have hfe : fid' = fid := congrArg Prod.fst h'
    have hse : s = score := congrArg Prod.snd h'
    rcases h3 with heq | ⟨f, hf, hq, hfid, hsc⟩
    · exact absurd (congrArg Prod.fst heq) (by simp)
    · have hfid2 : some fid' = some f.id := hfid
      have hsc2 : s = nameScore normalized f := hsc
      refine ⟨f, hf, (Option.some.inj hfid2).symm.trans hfe, hq, ?_, ?_⟩
      · rw [← hse]; exact hsc2
      · intro g hg hqg
        rw [← hse]; exact h2 g hg hqg

/-- A failed fuzzy match means no candidate qualifies. -/
theorem fuzzyMatch_none {raw normalized : String} {gpn : Option String} {vy : Option Nat}
    {funds : List Fund}
    (h : fuzzyMatch raw normalized gpn vy funds = none) :
    ∀ g ∈ funds, fuzzyQualifies raw normalized gpn vy g = false := by
  obtain ⟨h1, h2, h3⟩ := fuzzyLoop_spec raw normalized gpn vy funds none 0
  unfold fuzzyMatch at h
  rcases hl : fuzzyLoop raw normalized gpn vy funds none 0 with ⟨b, s⟩
  rw [hl] at h h1 h2 h3
  cases b with
  | some fid => simp at h
  | none =>
    intro g hg
    cases hq : fuzzyQualifies raw normalized gpn vy g with
    | false => rfl
    | true =>
      exfalso
      have hle : nameScore normalized g ≤ s := h2 g hg hq
      have hs0 : s = 0 := by
        rcases h3 with heq | ⟨f, _, _, hfid, _⟩
        · exact congrArg Prod.snd heq
        · simp at hfid
      have hgt : Rat.divInt 75 100 < nameScore normalized g := (fuzzyQualifies_parts hq).2.2.2.2.2
      rw [hs0] at hle
      exact absurd (lt_of_lt_of_le hgt hle) (by decide)

/-! ## Concrete fixtures used by witnesses and counterexamples -/

/-! ## C1 -/

/-- C1: in the fuzzy-match step of `resolve`, a candidate that survives all
hard rejects qualifies only if its signal count (token-sort name similarity
above 0.85; GP similarity above 0.85 when both sides supply a GP; vintage-year
equality when both sides supply one) is at least 2 and its name score exceeds
0.75 — both folded into `fuzzyQualifies` — and among qualifying candidates one
with the highest token-sort similarity is returned (`none` exactly when no
candidate qualifies). -/
theorem c1_fuzzy_qualification_and_argmax (raw normalized : String) (gpn : Option String)
    (vy : Option Nat) (funds : List Fund) :
    (∀ fid score, fuzzyMatch raw normalized gpn vy funds = some (fid, score) →
      ∃ f ∈ funds, f.id = fid ∧ fuzzyQualifies raw normalized gpn vy f = true ∧
        score = nameScore normalized f ∧
        ∀ g ∈ funds, fuzzyQualifies raw normalized gpn vy g = true →
          nameScore normalized g ≤ score) ∧
    (fuzzyMatch raw normalized gpn vy funds = none →
      ∀ g ∈ funds, fuzzyQualifies raw normalized gpn vy g = false) :=
  ⟨fun _ _ h => fuzzyMatch_some h, fun h => fuzzyMatch_none h⟩

theorem c1_witness :
    ∃ f ∈ [alphaFund], f.id = 0 ∧
      fuzzyQualifies "Alpha Fund II" "alpha fund ii" none (some 2020) f = true ∧
      (1 : ℚ) = nameScore "alpha fund ii" f ∧
      ∀ g ∈ [alphaFund], fuzzyQualifies "Alpha Fund II" "alpha fund ii" none (some 2020) g = true →
        nameScore "alpha fund ii" g ≤ 1 :=
  (c1_fuzzy_qualification_and_argmax "Alpha Fund II" "alpha fund ii" none (some 2020)
    [alphaFund]).1 0 1 (by decide)

/-! ## C2 -/

/-- C2: the fund-number hard reject fires exactly when both the input name and
the candidate's canonical name yield a fund number and the numbers differ (so a
`none` on either side never rejects); a returned fuzzy match is never a
number-rejected candidate; and resolving the Warburg Pincus XII name followed
by the XI name yields two distinct fund ids. -/
theorem c2_fund_number_hard_reject :
    (∀ raw f, numberReject raw f = true ↔
      ∃ a b, extractFundNumber raw = some a ∧ extractFundNumber f.fund_name = some b ∧ a ≠ b) ∧
    (∀ raw normalized gpn vy funds fid score,
      fuzzyMatch raw normalized gpn vy funds = some (fid, score) →
      ∃ f ∈ funds, f.id = fid ∧ numberReject raw f = false) ∧
    (wbResolve1.2.2 = "new" ∧ wbResolve2.2.2 = "new" ∧ wbResolve1.2.1 ≠ wbResolve2.2.1) := by
  refine ⟨?_, ?_, by decide⟩
  · intro raw f
    unfold numberReject
    cases h1 : extractFundNumber raw with
    | none => simp [h1]
    | some a =>
      cases h2 : extractFundNumber f.fund_name with
      | none => simp [h1, h2]
      | some b => simp [h1, h2, bne_iff_ne]
  · intro raw normalized gpn vy funds fid score h
    obtain ⟨f, hf, hfid, hq, _, _⟩ := fuzzyMatch_some h
    exact ⟨f, hf, hfid, (fuzzyQualifies_parts hq).1⟩

theorem c2_witness :
    ∃ f ∈ [alphaFund], f.id = 0 ∧ numberReject "Alpha Fund II" f = false :=
  c2_fund_number_hard_reject.2.1 "Alpha Fund II" "alpha fund ii" none (some 2020)
    [alphaFund] 0 1 (by decide)

/-! ## C6 -/

/-- C6: a fuzzy match is only ever returned for a candidate whose
strategy-keyword set (over the fixed set credit/asia/europe/latin/real/
infrastructure) equals that of the normalized input, and a candidate lacking
the token `credit` present in the input never qualifies, regardless of any
similarity score. -/
theorem c6_strategy_keyword_hard_reject :
    (∀ raw normalized gpn vy funds fid score,
      fuzzyMatch raw normalized gpn vy funds = some (fid, score) →
      ∃ f ∈ funds, f.id = fid ∧
        strategySet normalized = strategySet (canonicalNormalized f)) ∧
    (∀ raw normalized gpn vy f, "credit" ∈ wsTokens normalized →
      "credit" ∉ wsTokens (canonicalNormalized f) →
      fuzzyQualifies raw normalized gpn vy f = false) := by
  constructor
  · intro raw normalized gpn vy funds fid score h
    obtain ⟨f, hf, hfid, hq, _, _⟩ := fuzzyMatch_some h
    have hstrat : decide (strategySet normalized ≠ strategySet (canonicalNormalized f)) = false :=
      (fuzzyQualifies_parts hq).2.2.2.1
    exact ⟨f, hf, hfid, not_not.mp (of_decide_eq_false hstrat)⟩
  · intro raw normalized gpn vy f hin hout
    cases hq : fuzzyQualifies raw normalized gpn vy f with
    | false => rfl
    | true =>
      exfalso
      have hstrat : decide (strategySet normalized ≠ strategySet (canonicalNormalized f))
          = false := (fuzzyQualifies_parts hq).2.2.2.1
      have heq : strategySet normalized = strategySet (canonicalNormalized f) :=
        not_not.mp (of_decide_eq_false hstrat)
      have hmem : "credit" ∈ strategySet normalized := by
        simp only [strategySet, Finset.mem_inter, List.mem_toFinset]
        exact ⟨hin, by decide⟩
      rw [heq] at hmem
      simp only [strategySet, Finset.mem_inter, List.mem_toFinset] at hmem
      exact hout hmem.1

theorem c6_witness :
    (∃ f ∈ [alphaFund], f.id = 0 ∧
      strategySet "alpha fund ii" = strategySet (canonicalNormalized f)) ∧
    fuzzyQualifies "Ares Credit Fund V" "ares credit fund v" none none alphaFund = false := by
  refine ⟨?_, ?_⟩
  · exact c6_strategy_keyword_hard_reject.1 "Alpha Fund II" "alpha fund ii" none (some 2020)
      [alphaFund] 0 1 (by decide)
  · exact c6_strategy_keyword_hard_reject.2 "Ares Credit Fund V" "ares credit fund v" none none
      alphaFund (by decide) (by decide)

/-! ## C7 -/

/-- C7: every candidate with order-sensitive similarity below 0.65 is hard
rejected (so a returned match has standard similarity at least 0.65), every
candidate with both distinctive-token sets non-empty and Jaccard overlap below
0.30 is hard rejected (so a returned match has overlap at least 0.30 whenever
both sides have distinctive tokens), and the overlap test never rejects when
either side has no distinctive tokens. -/
theorem c7_standard_and_overlap_hard_rejects :
    (∀ raw normalized gpn vy funds fid score,
      fuzzyMatch raw normalized gpn vy funds = some (fid, score) →
      ∃ f ∈ funds, f.id = fid ∧
        Rat.divInt 65 100 ≤ standardScore normalized f ∧
        (distinctiveTokens normalized ≠ ∅ → distinctiveTokens (canonicalNormalized f) ≠ ∅ →
          Rat.divInt 3 10 ≤
            Rat.divInt
              (((distinctiveTokens normalized ∩ distinctiveTokens (canonicalNormalized f)).card :
                Int))
              (((distinctiveTokens normalized ∪ distinctiveTokens (canonicalNormalized f)).card :
                Int)))) ∧
    (∀ normalized f,
      distinctiveTokens normalized = ∅ ∨ distinctiveTokens (canonicalNormalized f) = ∅ →
      jaccardReject normalized f = false) := by
  constructor
  · intro raw normalized gpn vy funds fid score h
    obtain ⟨f, hf, hfid, hq, _, _⟩ := fuzzyMatch_some h
    obtain ⟨_, hstd, hjac, _, _, _⟩ := fuzzyQualifies_parts hq
    refine ⟨f, hf, hfid, ?_, ?_⟩
    · have : decide (standardScore normalized f < Rat.divInt 65 100) = false := hstd
      exact not_lt.mp (of_decide_eq_false this)
    · intro hdin hdcan
      simp only [jaccardReject] at hjac
      split at hjac
      next hcond =>
        have hnot := of_decide_eq_false hjac
        have hunion :
            distinctiveTokens normalized ∪ distinctiveTokens (canonicalNormalized f) ≠ ∅ :=
          fun he => hdin (Finset.union_eq_empty.mp he).1
        exact not_lt.mp (fun hr => hnot ⟨hunion, hr⟩)
      next hcond => exact absurd (And.intro hdin hdcan) hcond
  · intro normalized f h
    simp only [jaccardReject]
    split
    · rcases h with h | h
      · exact absurd h (by simp_all)
      · exact absurd h (by simp_all)
    · rfl

theorem c7_witness :
    (∃ f ∈ [alphaFund], f.id = 0 ∧
      Rat.divInt 65 100 ≤ standardScore "alpha fund ii" f ∧
      (distinctiveTokens "alpha fund ii" ≠ ∅ →
        distinctiveTokens (canonicalNormalized f) ≠ ∅ →
        Rat.divInt 3 10 ≤
          Rat.divInt
            (((distinctiveTokens "alpha fund ii" ∩
              distinctiveTokens (canonicalNormalized f)).card : Int))
            (((distinctiveTokens "alpha fund ii" ∪
              distinctiveTokens (canonicalNormalized f)).card : Int)))) ∧
    jaccardReject "global capital fund iv" alphaFund = false := by
  refine ⟨?_, ?_⟩
  · exact c7_standard_and_overlap_hard_rejects.1 "Alpha Fund II" "alpha fund ii" none (some 2020)
      [alphaFund] 0 1 (by decide)
  · exact c7_standard_and_overlap_hard_rejects.2 "global capital fund iv" alphaFund
      (Or.inl (by decide))

/-! ## C3 -/

/-- C3 (code bug in the source): `resolve` has no empty-name guard at all —
there is no `EmptyNameError` anywhere in the repository — so resolving the
empty string does not fail fast; it falls through every match stage and
silently creates a garbage fund: the match type is `new` and both the
in-memory fund list and the funds store grow from 0 to 1 entries. -/
theorem c3_empty_name_creates_fund :
    (resolve emptyState "" none none none).2.2 = "new" ∧
    (resolve emptyState "" none none none).1.funds.length = 1 ∧
    (resolve emptyState "" none none none).1.db_funds.length = 1 ∧
    emptyState.funds.length = 0 ∧ emptyState.db_funds.length = 0 := by decide

/-! ## C10 -/

/-- C10: when `resolve` answers `exact` or `alias` it performs no write: the
whole registry state (in-memory indices, fund list and all store tables) is
returned unchanged, and in particular `get_stats` returns the same counts. -/
theorem c10_exact_alias_no_write (st : RegState) (raw : String) (gp : Option String)
    (vy : Option Nat) (src : Option String)
    (h : (resolve st raw gp vy src).2.2 = "exact" ∨ (resolve st raw gp vy src).2.2 = "alias") :
    (resolve st raw gp vy src).1 = st ∧ getStats (resolve st raw gp vy src).1 = getStats st := by
  have key : (resolve st raw gp vy src).1 = st ∨
      ((resolve st raw gp vy src).2.2 = "fuzzy" ∨ (resolve st raw gp vy src).2.2 = "new") := by
    rcases h1 : lookupAssoc st.name_to_id (strLower (normalizeFundName raw)) with _ | fid1
    case none =>
      rcases h2 : lookupAssoc st.alias_to_id (strLower (strTrim raw)) with _ | fid2
      case none =>
        rcases h3 : lookupAssoc st.alias_to_id (strLower (normalizeFundName raw)) with _ | fid3
        case none =>
          rcases h4 : fuzzyMatch raw (strLower (normalizeFundName raw))
              (if pyStr gp then some (strLower (normalizeGpName (gp.getD ""))) else none)
              vy st.funds with _ | p
          case none => right; right; simp [resolve, h1, h2, h3, h4]
          case some => right; left; simp [resolve, h1, h2, h3, h4]
        case some => left; simp [resolve, h1, h2, h3]
      case some => left; simp [resolve, h1, h2]
    case some => left; simp [resolve, h1]
  rcases key with hk | hk
  · exact ⟨hk, by rw [hk]⟩
  · exfalso
    rcases h with h | h <;> rcases hk with hk | hk <;>
      exact absurd (h.symm.trans hk) (by decide)

theorem c10_witness :
    (resolve alphaState "Alpha Fund II" none none none).1 = alphaState ∧
    getStats (resolve alphaState "Alpha Fund II" none none none).1 = getStats alphaState :=
  c10_exact_alias_no_write alphaState "Alpha Fund II" none none none (Or.inl (by decide))

/-! ## Preservation lemmas for the write operations -/

theorem dbAddFundAlias_indices (st : RegState) (fid : Nat) (a : String) (src : Option String) :
    (dbAddFundAlias st fid a src).1.funds = st.funds ∧
    (dbAddFundAlias st fid a src).1.name_to_id = st.name_to_id ∧
    (dbAddFundAlias st fid a src).1.alias_to_id = st.alias_to_id := by
  unfold dbAddFundAlias
  dsimp only
  split <;> simp

theorem dbAddGpAlias_indices (st : RegState) (c a : String) :
    (dbAddGpAlias st c a).1.funds = st.funds ∧
    (dbAddGpAlias st c a).1.name_to_id = st.name_to_id ∧
    (dbAddGpAlias st c a).1.alias_to_id = st.alias_to_id := by
  unfold dbAddGpAlias
  dsimp only
  split <;> simp

theorem dbUpsertFund_indices (st : RegState) (f : Fund) :
    (dbUpsertFund st f).funds = st.funds ∧
    (dbUpsertFund st f).name_to_id = st.name_to_id ∧
    (dbUpsertFund st f).alias_to_id = st.alias_to_id := by
  unfold dbUpsertFund
  dsimp only
  split <;> simp

/-- What `_create_new_fund` returns and how it updates the canonical-name
index: the fresh id is `st.nextId` and the index gains the (lowercased)
canonical name — or the raw name when the canonical form is empty. -/
theorem createNewFund_parts (st : RegState) (raw : String) (gp : Option String)
    (vy : Option Nat) :
    (createNewFund st raw gp vy).2 = st.nextId ∧
    (createNewFund st raw gp vy).1.name_to_id =
      insertAssoc st.name_to_id
        (strLower (if normalizeFundName raw ≠ "" then normalizeFundName raw else raw))
        st.nextId := by
  unfold createNewFund
  dsimp only
  constructor
  · rfl
  · repeat' split
    all_goals simp [dbUpsertFund_indices, dbAddGpAlias_indices]

/-! ## C4 -/

/-- C4 counterexample: `"LLC"` is a valid input (non-empty, not whitespace),
but its normalized name is empty, so `_create_new_fund` indexes the new fund
under the lowercased raw name while `resolve` looks up the lowercased
normalized name; resolving `"LLC"` twice in a row therefore creates two
distinct funds and the second call's match type is `new`. -/
theorem c4_counterexample :
    llcResolve1.2.2 = "new" ∧ llcResolve2.2.2 = "new" ∧ llcResolve1.2.1 ≠ llcResolve2.2.1 := by
  decide

/-- C4 (amended): for every input whose name normalizes to a non-empty string,
calling `resolve` twice on the same registry returns the same fund id both
times and the second call's match type is `exact` or `alias`, never `new`. -/
theorem c4_amended_idempotent (st : RegState) (raw : String) (gp : Option String)
    (vy : Option Nat) (src : Option String) (hne : normalizeFundName raw ≠ "") :
    (resolve (resolve st raw gp vy src).1 raw gp vy src).2.1 = (resolve st raw gp vy src).2.1 ∧
    ((resolve (resolve st raw gp vy src).1 raw gp vy src).2.2 = "exact" ∨
     (resolve (resolve st raw gp vy src).1 raw gp vy src).2.2 = "alias") := by
  rcases h1 : lookupAssoc st.name_to_id (strLower (normalizeFundName raw)) with _ | fid1
  case some =>
    have e1 : resolve st raw gp vy src = (st, fid1, "exact") := by
      simp [resolve, h1]
    simp [e1]
  case none =>
    rcases h2 : lookupAssoc st.alias_to_id (strLower (strTrim raw)) with _ | fid2
    case some =>
      have e1 : resolve st raw gp vy src = (st, fid2, "alias") := by
        simp [resolve, h1, h2]
      simp [e1, h1]
    case none =>
      rcases h3 : lookupAssoc st.alias_to_id (strLower (normalizeFundName raw)) with _ | fid3
      case some =>
        have e1 : resolve st raw gp vy src = (st, fid3, "alias") := by
          simp [resolve, h1, h2, h3]
        simp [e1, h1, h2]
      case none =>
        rcases h4 : fuzzyMatch raw (strLower (normalizeFundName raw))
            (if pyStr gp then some (strLower (normalizeGpName (gp.getD ""))) else none)
            vy st.funds with _ | p
        case some =>
          obtain ⟨fid, score⟩ := p
          have hfields := dbAddFundAlias_indices st fid raw src
          set A := (dbAddFundAlias st fid raw src).1 with hA
          set m2 := insertAssoc (insertAssoc A.alias_to_id (strLower (strTrim raw)) fid)
            (strLower (normalizeFundName raw)) fid with hm2
          set B : RegState := { A with alias_to_id := m2 } with hB
          have e1 : resolve st raw gp vy src = (B, fid, "fuzzy") := by
            simp only [resolve, h1, h2, h3, h4, hB, hm2, hA]
          rw [e1]
          dsimp only
          have hname2 : lookupAssoc B.name_to_id (strLower (normalizeFundName raw)) = none := by
            rw [hB]
            have hA1 : A.name_to_id = st.name_to_id := hfields.2.1
            simp [hA1, h1]
          have halias2 : lookupAssoc B.alias_to_id (strLower (strTrim raw)) = some fid := by
            rw [hB]
            dsimp only
            rw [hm2]
            by_cases hrn : strLower (normalizeFundName raw) = strLower (strTrim raw)
            · rw [hrn]
              exact lookupAssoc_insertAssoc_self _ _ _
            · rw [lookupAssoc_insertAssoc_ne _ _ hrn]
              exact lookupAssoc_insertAssoc_self _ _ _
          have e2 : resolve B raw gp vy src = (B, fid, "alias") := by
            simp only [resolve, hname2, halias2]
          rw [e2]
          exact ⟨rfl, Or.inr rfl⟩
        case none =>
          have e1 : resolve st raw gp vy src =
              ((createNewFund st raw gp vy).1, (createNewFund st raw gp vy).2, "new") := by
            simp only [resolve, h1, h2, h3, h4]
          rw [e1]
          dsimp only
          have hkey : lookupAssoc (createNewFund st raw gp vy).1.name_to_id
              (strLower (normalizeFundName raw)) = some st.nextId := by
            rw [(createNewFund_parts st raw gp vy).2, if_pos hne]
            exact lookupAssoc_insertAssoc_self _ _ _
          have e2 : resolve (createNewFund st raw gp vy).1 raw gp vy src =
              ((createNewFund st raw gp vy).1, st.nextId, "exact") := by
            simp only [resolve, hkey]
          rw [e2]
          exact ⟨(createNewFund_parts st raw gp vy).1.symm, Or.inl rfl⟩

theorem c4_amended_witness :
    (resolve (resolve alphaState "Alpha Fund II" none none none).1
        "Alpha Fund II" none none none).2.1 =
      (resolve alphaState "Alpha Fund II" none none none).2.1 ∧
    ((resolve (resolve alphaState "Alpha Fund II" none none none).1
        "Alpha Fund II" none none none).2.2 = "exact" ∨
     (resolve (resolve alphaState "Alpha Fund II" none none none).1
        "Alpha Fund II" none none none).2.2 = "alias") :=
  c4_amended_idempotent alphaState "Alpha Fund II" none none none (by decide)

/-! ## C5 -/

/-- C5 counterexample: after the seeded KKR fund is fuzzy-matched, the
persistent store holds only the raw alias string `"KKR Americas Fund XII"`;
the normalized form `"kkr americas fund xii"` is not persisted as an alias (it
is only cached in the in-memory index, and without a source scope). -/
theorem c5_counterexample :
    kkrResolve2.2.2 = "fuzzy" ∧
    kkrResolve2.1.db_fund_aliases.map (fun r => r.aliasText) = ["KKR Americas Fund XII"] ∧
    (∀ r ∈ kkrResolve2.1.db_fund_aliases, r.aliasText ≠ "kkr americas fund xii") := by
  decide

/-- C5 (amended): when `resolve` accepts a fuzzy match it persists only the
raw input string as a new alias of the matched fund scoped to `source_id`
(when no row with that key exists yet), records both the raw and the
normalized lowercased forms in the in-memory alias index, and returns
`(fund_id, fuzzy)`; a subsequent `resolve` of the same raw string (with any
GP/vintage/source arguments, in particular none) returns the same `fund_id`
with match type `alias`, not `fuzzy`. -/
theorem c5_amended_fuzzy_alias_promotion (st : RegState) (raw : String) (gp : Option String)
    (vy : Option Nat) (src : Option String) (st' : RegState) (fid : Nat)
    (h : resolve st raw gp vy src = (st', fid, "fuzzy")) :
    lookupAssoc st'.alias_to_id (strLower (strTrim raw)) = some fid ∧
    lookupAssoc st'.alias_to_id (strLower (normalizeFundName raw)) = some fid ∧
    (st.db_fund_aliases.find? (fun r => r.aliasText == raw &&
        aliasConflict src r.source_pension_fund_id) = none →
      st'.db_fund_aliases = st.db_fund_aliases ++ [mkAliasRow st.nextId fid raw src]) ∧
    (∀ gp2 vy2 src2, resolve st' raw gp2 vy2 src2 = (st', fid, "alias")) := by
  rcases h1 : lookupAssoc st.name_to_id (strLower (normalizeFundName raw)) with _ | fid1
  case some =>
    exfalso
    have e1 : resolve st raw gp vy src = (st, fid1, "exact") := by simp [resolve, h1]
    rw [e1] at h
    have hcontra : "exact" = "fuzzy" := congrArg (fun t => t.2.2) h
    exact absurd hcontra (by decide)
  case none =>
    rcases h2 : lookupAssoc st.alias_to_id (strLower (strTrim raw)) with _ | fid2
    case some =>
      exfalso
      have e1 : resolve st raw gp vy src = (st, fid2, "alias") := by simp [resolve, h1, h2]
      rw [e1] at h
      have hcontra : "alias" = "fuzzy" := congrArg (fun t => t.2.2) h
      exact absurd hcontra (by decide)
    case none =>
      rcases h3 : lookupAssoc st.alias_to_id (strLower (normalizeFundName raw)) with _ | fid3
      case some =>
        exfalso
        have e1 : resolve st raw gp vy src = (st, fid3, "alias") := by simp [resolve, h1, h2, h3]
        rw [e1] at h
        have hcontra : "alias" = "fuzzy" := congrArg (fun t => t.2.2) h
        exact absurd hcontra (by decide)
      case none =>
        rcases h4 : fuzzyMatch raw (strLower (normalizeFundName raw))
            (if pyStr gp then some (strLower (normalizeGpName (gp.getD ""))) else none)
            vy st.funds with _ | p
        case none =>
          exfalso
          have e1 : resolve st raw gp vy src =
              ((createNewFund st raw gp vy).1, (createNewFund st raw gp vy).2, "new") := by
            simp only [resolve, h1, h2, h3, h4]
          rw [e1] at h
          have hcontra : "new" = "fuzzy" := congrArg (fun t => t.2.2) h
          exact absurd hcontra (by decide)
        case some =>
          obtain ⟨fid0, score⟩ := p
          have hfields := dbAddFundAlias_indices st fid0 raw src
          set A := (dbAddFundAlias st fid0 raw src).1 with hA
          set m2 := insertAssoc (insertAssoc A.alias_to_id (strLower (strTrim raw)) fid0)
            (strLower (normalizeFundName raw)) fid0 with hm2
          set B : RegState := { A with alias_to_id := m2 } with hB
          have e1 : resolve st raw gp vy src = (B, fid0, "fuzzy") := by
            simp only [resolve, h1, h2, h3, h4, hB, hm2, hA]
          rw [e1] at h
          have hst : B = st' := congrArg Prod.fst h
          have hfid : fid0 = fid := congrArg (fun t => t.2.1) h
          subst hst
          subst hfid
          have halias2 : lookupAssoc B.alias_to_id (strLower (strTrim raw)) = some fid0 := by
            rw [hB]
            dsimp only
            rw [hm2]
            by_cases hrn : strLower (normalizeFundName raw) = strLower (strTrim raw)
            · rw [hrn]
              exact lookupAssoc_insertAssoc_self _ _ _
            · rw [lookupAssoc_insertAssoc_ne _ _ hrn]
              exact lookupAssoc_insertAssoc_self _ _ _
          have halias3 : lookupAssoc B.alias_to_id (strLower (normalizeFundName raw))
              = some fid0 := by
            rw [hB]
            dsimp only
            rw [hm2]
            exact lookupAssoc_insertAssoc_self _ _ _
          have hname2 : lookupAssoc B.name_to_id (strLower (normalizeFundName raw)) = none := by
            rw [hB]
            have hA1 : A.name_to_id = st.name_to_id := hfields.2.1
            simp [hA1, h1]
          refine ⟨halias2, halias3, ?_, ?_⟩
          · intro hfind
            rw [hB]
            dsimp only
            rw [hA]
            unfold dbAddFundAlias
            dsimp only
            rw [hfind]
            simp [mkAliasRow]
          · intro gp2 vy2 src2
            simp only [resolve, hname2, halias2]

theorem c5_amended_witness :
    lookupAssoc kkrResolve2.1.alias_to_id (strLower (strTrim "KKR Americas Fund XII"))
      = some kkrResolve2.2.1 ∧
    lookupAssoc kkrResolve2.1.alias_to_id (strLower (normalizeFundName "KKR Americas Fund XII"))
      = some kkrResolve2.2.1 ∧
    (kkrResolve1.1.db_fund_aliases.find? (fun r => r.aliasText == "KKR Americas Fund XII" &&
        aliasConflict (some "calpers") r.source_pension_fund_id) = none →
      kkrResolve2.1.db_fund_aliases = kkrResolve1.1.db_fund_aliases ++
        [mkAliasRow kkrResolve1.1.nextId kkrResolve2.2.1 "KKR Americas Fund XII"
          (some "calpers")]) ∧
    (∀ gp2 vy2 src2, resolve kkrResolve2.1 "KKR Americas Fund XII" gp2 vy2 src2 =
      (kkrResolve2.1, kkrResolve2.2.1, "alias")) :=
  c5_amended_fuzzy_alias_promotion kkrResolve1.1 "KKR Americas Fund XII" (some "KKR")
    (some 2017) (some "calpers") kkrResolve2.1 kkrResolve2.2.1 (by decide)

/-! ## C9 -/

/-- C9 counterexample: with a NULL `source_id` the UNIQUE constraint never
fires (SQLite treats NULLs as distinct), so inserting the same alias text
twice stores two rows with the identical `(alias_text, NULL)` key and the
second call returns a fresh id, not the existing one. -/
theorem c9_counterexample :
    dupAdd2.1.db_fund_aliases.map (fun r => (r.aliasText, r.source_pension_fund_id)) =
      [("Fund A", none), ("Fund A", none)] ∧
    dupAdd2.2 ≠ dupAdd1.2 := by decide

/-- C9 (amended): for a non-NULL `source_id`, `add_fund_alias` is idempotent
by `(alias_text, source_id)` — a duplicate insert leaves the table unchanged
and returns the existing row's id; every insert (any source) preserves all
existing rows unchanged, so an alias is never repointed to a different fund;
and the non-NULL key-uniqueness invariant is preserved.  With a NULL source
the duplicate protection does not apply (see the counterexample). -/
theorem c9_amended_add_alias_idempotent :
    (∀ st fid a s r, r ∈ st.db_fund_aliases → r.aliasText = a →
      r.source_pension_fund_id = some s → aliasKeyUnique st.db_fund_aliases →
      (dbAddFundAlias st fid a (some s)).1.db_fund_aliases = st.db_fund_aliases ∧
      (dbAddFundAlias st fid a (some s)).2 = r.rowId) ∧
    (∀ st fid a src r, r ∈ st.db_fund_aliases →
      r ∈ (dbAddFundAlias st fid a src).1.db_fund_aliases) ∧
    (∀ st fid a src, aliasKeyUnique st.db_fund_aliases →
      aliasKeyUnique (dbAddFundAlias st fid a src).1.db_fund_aliases) := by
  refine ⟨?_, ?_, ?_⟩
  · intro st fid a s r hr hra hrs huniq
    unfold dbAddFundAlias
    dsimp only
    rcases hfind : st.db_fund_aliases.find?
        (fun x => x.aliasText == a && aliasConflict (some s) x.source_pension_fund_id)
        with _ | x
    case none =>
      exfalso
      have hall := List.find?_eq_none.mp hfind r hr
      apply hall
      simp [hra, hrs, aliasConflict]
    case some =>
      rw [hfind]
      dsimp only
      have hpx := List.find?_some hfind
      have hxmem := List.mem_of_find?_eq_some hfind
      simp only [Bool.and_eq_true, beq_iff_eq] at hpx
      obtain ⟨hxa, hxc⟩ := hpx
      rcases hxs : x.source_pension_fund_id with _ | b
      · rw [hxs] at hxc
        simp [aliasConflict] at hxc
      · rw [hxs] at hxc
        have hsb : s = b := by simpa [aliasConflict] using hxc
        have hxr : x = r :=
          huniq x hxmem r hr (by rw [hxa, hra]) (by rw [hxs, hrs, hsb]) (by simp [hxs])
        exact ⟨rfl, by rw [hxr]⟩
  · intro st fid a src r hr
    unfold dbAddFundAlias
    dsimp only
    rcases hfind : st.db_fund_aliases.find?
        (fun x => x.aliasText == a && aliasConflict src x.source_pension_fund_id)
        with _ | x
    · rw [hfind]
      dsimp only
      simp [hr]
    · rw [hfind]
      dsimp only
      exact hr
  · intro st fid a src huniq
    unfold dbAddFundAlias
    dsimp only
    rcases hfind : st.db_fund_aliases.find?
        (fun x => x.aliasText == a && aliasConflict src x.source_pension_fund_id)
        with _ | x
    case some =>
      rw [hfind]
      dsimp only
      exact huniq
    case none =>
      rw [hfind]
      dsimp only
      intro r1 h1 r2 h2 hkey hsrc hnn
      rcases List.mem_append.mp h1 with h1l | h1r
      · rcases List.mem_append.mp h2 with h2l | h2r
        · exact huniq r1 h1l r2 h2l hkey hsrc hnn
        · exfalso
          have hr2 : r2 = mkAliasRow st.nextId fid a src := by
            simpa [mkAliasRow] using h2r
          have hall := List.find?_eq_none.mp hfind r1 h1l
          apply hall
          have ha1 : r1.aliasText = a := by rw [hkey, hr2]; rfl
          have hs1 : r1.source_pension_fund_id = src := by rw [hsrc, hr2]; rfl
          rcases hs : r1.source_pension_fund_id with _ | sVal
          · exact absurd hs hnn
          · have hsrc2 : src = some sVal := by rw [← hs1, hs]
            simp [ha1, hs, hsrc2, aliasConflict]
      · rcases List.mem_append.mp h2 with h2l | h2r
        · exfalso
          have hr1 : r1 = mkAliasRow st.nextId fid a src := by
            simpa [mkAliasRow] using h1r
          have hall := List.find?_eq_none.mp hfind r2 h2l
          apply hall
          have ha2 : r2.aliasText = a := by rw [← hkey, hr1]; rfl
          have hs2 : r2.source_pension_fund_id = src := by rw [← hsrc, hr1]; rfl
          rcases hs : r2.source_pension_fund_id with _ | sVal
          · rw [hs] at hs2
            have : r1.source_pension_fund_id = none := by rw [hsrc, hs]
            exact absurd this hnn
          · have hsrc2 : src = some sVal := by rw [← hs2, hs]
            simp [ha2, hs, hsrc2, aliasConflict]
        · have hr1 : r1 = mkAliasRow st.nextId fid a src := by
            simpa [mkAliasRow] using h1r
          have hr2 : r2 = mkAliasRow st.nextId fid a src := by
            simpa [mkAliasRow] using h2r
          rw [hr1, hr2]

theorem c9_witness :
    ((dbAddFundAlias c9State 7 "Fund A" (some "ny")).1.db_fund_aliases =
        c9State.db_fund_aliases ∧
      (dbAddFundAlias c9State 7 "Fund A" (some "ny")).2 =
        (mkAliasRow 3 5 "Fund A" (some "ny")).rowId) ∧
    (mkAliasRow 3 5 "Fund A" (some "ny") ∈
      (dbAddFundAlias c9State 7 "Fund B" none).1.db_fund_aliases) ∧
    aliasKeyUnique (dbAddFundAlias c9State 7 "Fund A" (some "ny")).1.db_fund_aliases := by
  refine ⟨?_, ?_, ?_⟩
  · exact c9_amended_add_alias_idempotent.1 c9State 7 "Fund A" "ny"
      (mkAliasRow 3 5 "Fund A" (some "ny")) (by decide) rfl rfl
      (by unfold aliasKeyUnique; decide)
  · exact c9_amended_add_alias_idempotent.2.1 c9State 7 "Fund B" none
      (mkAliasRow 3 5 "Fund A" (some "ny")) (by decide)
  · exact c9_amended_add_alias_idempotent.2.2 c9State 7 "Fund A" (some "ny")
      (by unfold aliasKeyUnique; decide)

/-! ## C8 -/

theorem specRomanOfValue_romanValue {s : String} {v : Nat} (h : romanValue s = some v) :
    specRomanOfValue v = some s := by
  unfold romanValue at h
  split at h <;>
    first
      | (subst h; rfl)
      | (injection h with h2; subst h2; rfl)
      | exact Option.noConfusion h

theorem efnCheck_roman {tokens : List String} {i : Nat} {t : String} {v : Nat} {up : String}
    (h : efnCheck tokens i t = some (v, up)) : romanValue up = some v := by
  unfold efnCheck at h
  dsimp only at h
  rcases hr : romanValue (rstripDots (strUpper t)) with _ | v0
  · rw [hr] at h
    simp at h
  · rw [hr] at h
    repeat' split at h
    all_goals simp_all

theorem efnCheck_eq_specEligibleValue (tokens : List String) (i : Nat) (token : String) :
    efnCheck tokens i token =
      (specEligibleValue tokens i token).map (fun v => (v, rstripDots (strUpper token))) := by
  unfold efnCheck specEligibleValue
  dsimp only
  rcases h : romanValue (rstripDots (strUpper token)) with _ | v
  · rfl
  · by_cases hI : rstripDots (strUpper token) = "I"
    · by_cases hi : i = 0
      · simp [h, hI, hi]
      · by_cases hw : rstripDotsCommas (strLower (tokens.getD (i - 1) "")) ∈ efnFundWords
        · simp [h, hI, hi, hw]
        · simp [h, hI, hi, hw]
    · by_cases hV : rstripDots (strUpper token) = "V"
      · simp [h, hI, hV]
        split <;> simp
      · simp [h, hI, hV]

theorem foldr_max_max (a b : Nat) (l : List Nat) :
    l.foldr max (max a b) = max a (l.foldr max b) := by
  induction l with
  | nil => rfl
  | cons x t ih => simp only [List.foldr, ih, Nat.max_left_comm]

theorem le_foldr_max (b : Nat) (l : List Nat) : b ≤ l.foldr max b := by
  induction l with
  | nil => exact le_refl b
  | cons x t ih => exact le_trans ih (le_max_right x _)

/-- Invariant of the `best_roman` / `best_value` fold: under the invariant
that `best` is the numeral of `bestVal` (or nothing for value 0), the fold
computes the numeral of the maximum of `bestVal` and the eligible values. -/
theorem efnLoop_spec (tokens : List String) :
    ∀ (pairs : List (Nat × String)) (best : Option String) (bestVal : Nat),
      ((best = none ∧ bestVal = 0) ∨ (∃ s, best = some s ∧ romanValue s = some bestVal)) →
      efnLoop tokens pairs best bestVal =
        specRomanOfValue
          ((pairs.filterMap (fun p => specEligibleValue tokens p.1 p.2)).foldr max bestVal) := by
  intro pairs
  induction pairs with
  | nil =>
    intro best bestVal hinv
    rcases hinv with ⟨hb, hv⟩ | ⟨s, hb, hs⟩
    · subst hb; subst hv; rfl
    · subst hb
      simp only [efnLoop, List.filterMap, List.foldr]
      exact (specRomanOfValue_romanValue hs).symm
  | cons p rest ih =>
    intro best bestVal hinv
    obtain ⟨i, t⟩ := p
    cases hc : efnCheck tokens i t with
    | none =>
      have hse : specEligibleValue tokens i t = none := by
        have hspec := efnCheck_eq_specEligibleValue tokens i t
        rw [hc] at hspec
        cases hsv : specEligibleValue tokens i t
        · rfl
        · rw [hsv] at hspec
          simp at hspec
      simp only [efnLoop, hc]
      rw [ih best bestVal hinv]
      simp [hse]
    | some pv =>
      obtain ⟨v, up⟩ := pv
      have hroman : romanValue up = some v := efnCheck_roman hc
      have hse : specEligibleValue tokens i t = some v := by
        have hspec := efnCheck_eq_specEligibleValue tokens i t
        rw [hc] at hspec
        cases hsv : specEligibleValue tokens i t with
        | none => rw [hsv] at hspec; simp at hspec
        | some v2 =>
          rw [hsv] at hspec
          simp at hspec
          exact congrArg some hspec.1.symm
      have hlist : ((⟨i, t⟩ :: rest) : List (Nat × String)).filterMap
            (fun p => specEligibleValue tokens p.1 p.2) =
          v :: rest.filterMap (fun p => specEligibleValue tokens p.1 p.2) := by
        simp [List.filterMap, hse]
      rw [hlist]
      by_cases hlt : bestVal < v
      · have hred : efnLoop tokens ((i, t) :: rest) best bestVal =
            efnLoop tokens rest (some up) v := by
          simp [efnLoop, hc, hlt]
        rw [hred, ih (some up) v (Or.inr ⟨up, rfl, hroman⟩)]
        have h1 : max v bestVal = v := max_eq_left (le_of_lt hlt)
        calc specRomanOfValue
              ((rest.filterMap (fun p => specEligibleValue tokens p.1 p.2)).foldr max v)
            = specRomanOfValue
              ((rest.filterMap (fun p => specEligibleValue tokens p.1 p.2)).foldr max
                (max v bestVal)) := by rw [h1]
          _ = specRomanOfValue
              (max v ((rest.filterMap (fun p => specEligibleValue tokens p.1 p.2)).foldr max
                bestVal)) := by rw [foldr_max_max]
          _ = specRomanOfValue
              ((v :: rest.filterMap (fun p => specEligibleValue tokens p.1 p.2)).foldr max
                bestVal) := rfl
      · have hred : efnLoop tokens ((i, t) :: rest) best bestVal =
            efnLoop tokens rest best bestVal := by
          simp [efnLoop, hc, hlt]
        rw [hred, ih best bestVal hinv]
        have hv : v ≤ (rest.filterMap (fun p => specEligibleValue tokens p.1 p.2)).foldr max
            bestVal :=
          le_trans (le_of_not_lt hlt) (le_foldr_max _ _)
        have : (v :: rest.filterMap (fun p => specEligibleValue tokens p.1 p.2)).foldr max
            bestVal =
            (rest.filterMap (fun p => specEligibleValue tokens p.1 p.2)).foldr max bestVal := by
          simp only [List.foldr]
          exact max_eq_right hv
        rw [this]

/-- C8: `extract_fund_number` tokenizes on the whitespace/punctuation
separator class, and returns exactly the Roman-numeral token (I..XXV, after
upper-casing and stripping trailing dots) with the largest integer value among
the eligible tokens — where a standalone `I` is eligible only when it is not
the first token and the preceding token is in the fund-context vocabulary, and
a standalone `V` is skipped when the preceding token ends in `v` — and `null`
when no token qualifies. -/
theorem c8_extract_fund_number_is_max_eligible (name : String) :
    extractFundNumber name = specFundNumber name := by
  unfold extractFundNumber specFundNumber
  by_cases h : name = ""
  · simp [h]
  · simp only [h, if_false]
    exact efnLoop_spec (splitTokens (strTrim name)) (splitTokens (strTrim name)).enum none 0
      (Or.inl ⟨rfl, rfl⟩)
